import Mathlib

/-!
Shallow embedding of `blockchain.py` (pyncoin/pynaive): the `Block` and
`Blockchain` classes, their hashing, validation, mining, difficulty
adjustment and chain-replacement logic.

Modelling conventions:
* Python `bytes` values are `List Nat` with every element a byte value.
* Python `datetime` values are microseconds since the Unix epoch (`Int`),
  matching CPython's microsecond resolution; `total_seconds()` comparisons
  against a constant `c` seconds are scaled exactly to microsecond
  comparisons against `c * 1000000`.
* `hashlib.sha256` is embedded as an executable SHA-256 over byte lists;
  the incremental `hasher.update` calls are modelled by accumulating the
  message bytes and digesting at the end, exactly as hashlib does.
* Exceptions (`IndexError`, `AttributeError`, `BadRequestError`) are
  modelled with an explicit `Except` result paired with the (unchanged)
  aggregate state at the raise point.
-/

namespace Pynaive

/-! ## SHA-256 (executable model of `hashlib.sha256`) -/

/-- Rotate a 32-bit word (a `Nat` below `2 ^ 32`) right by `n` bits. -/
def rotr32 (n x : Nat) : Nat :=
  x / 2 ^ n + x % 2 ^ n * 2 ^ (32 - n)

/-- SHA-256 small sigma 0. -/
def ssig0 (x : Nat) : Nat := rotr32 7 x ^^^ rotr32 18 x ^^^ x / 2 ^ 3

/-- SHA-256 small sigma 1. -/
def ssig1 (x : Nat) : Nat := rotr32 17 x ^^^ rotr32 19 x ^^^ x / 2 ^ 10

/-- SHA-256 big sigma 0. -/
def bsig0 (x : Nat) : Nat := rotr32 2 x ^^^ rotr32 13 x ^^^ rotr32 22 x

/-- SHA-256 big sigma 1. -/
def bsig1 (x : Nat) : Nat := rotr32 6 x ^^^ rotr32 11 x ^^^ rotr32 25 x

/-- SHA-256 choose function (`~e` is `0xffffffff - e` for `e < 2 ^ 32`). -/
def sha256ch (e f g : Nat) : Nat := (e &&& f) ^^^ ((4294967295 - e % 4294967296) &&& g)

/-- SHA-256 majority function. -/
def sha256maj (a b c : Nat) : Nat := (a &&& b) ^^^ (a &&& c) ^^^ (b &&& c)

/-- The 64 SHA-256 round constants (FIPS 180-4, written in decimal). -/
def sha256K : List Nat :=
  [1116352408, 1899447441, 3049323471, 3921009573, 961987163, 1508970993,
   2453635748, 2870763221, 3624381080, 310598401, 607225278, 1426881987,
   1925078388, 2162078206, 2614888103, 3248222580, 3835390401, 4022224774,
   264347078, 604807628, 770255983, 1249150122, 1555081692, 1996064986,
   2554220882, 2821834349, 2952996808, 3210313671, 3336571891, 3584528711,
   113926993, 338241895, 666307205, 773529912, 1294757372, 1396182291,
   1695183700, 1986661051, 2177026350, 2456956037, 2730485921, 2820302411,
   3259730800, 3345764771, 3516065817, 3600352804, 4094571909, 275423344,
   430227734, 506948616, 659060556, 883997877, 958139571, 1322822218,
   1537002063, 1747873779, 1955562222, 2024104815, 2227730452, 2361852424,
   2428436474, 2756734187, 3204031479, 3329325298]

/-- The SHA-256 initial state (FIPS 180-4, written in decimal). -/
def sha256H0 : List Nat :=
  [1779033703, 3144134277, 1013904242, 2773480762,
   1359893119, 2600822924, 528734635, 1541459225]

/-- Group a list of bytes into big-endian 32-bit words (4 bytes per word). -/
def bytesToWords : List Nat → List Nat
  | b0 :: b1 :: b2 :: b3 :: rest => (((b0 * 256 + b1) * 256 + b2) * 256 + b3) :: bytesToWords rest
  | _ => []

/-- Split a word list into consecutive 16-word chunks (the 64-byte blocks). -/
def chunk16 : List Nat → List (List Nat)
  | w0 :: w1 :: w2 :: w3 :: w4 :: w5 :: w6 :: w7 ::
    w8 :: w9 :: w10 :: w11 :: w12 :: w13 :: w14 :: w15 :: rest =>
    [w0, w1, w2, w3, w4, w5, w6, w7, w8, w9, w10, w11, w12, w13, w14, w15] :: chunk16 rest
  | _ => []

/-- Extend 16 message-schedule words to the full 64-word schedule. -/
def sha256extend (w16 : Array Nat) : Array Nat :=
  (List.range 48).foldl
    (fun w i =>
      w.push ((w.getD i 0 + ssig0 (w.getD (i + 1) 0) + w.getD (i + 9) 0 +
               ssig1 (w.getD (i + 14) 0)) % 4294967296))
    w16

/-- One SHA-256 compression round over the working tuple `(a,b,c,d,e,f,g,h)`
with round constant `k` and schedule word `wi`. -/
def sha256round (st : Nat × Nat × Nat × Nat × Nat × Nat × Nat × Nat) (kw : Nat × Nat) :
    Nat × Nat × Nat × Nat × Nat × Nat × Nat × Nat :=
  let (a, b, c, d, e, f, g, h) := st
  let (k, wi) := kw
  let t1 := (h + bsig1 e + sha256ch e f g + k + wi) % 4294967296
  let t2 := (bsig0 a + sha256maj a b c) % 4294967296
  ((t1 + t2) % 4294967296, a, b, c, (d + t1) % 4294967296, e, f, g)

/-- Compress one 64-word schedule into the 8-word hash state. -/
def sha256compress (H : List Nat) (w : List Nat) : List Nat :=
  match H with
  | [h0, h1, h2, h3, h4, h5, h6, h7] =>
    let (a, b, c, d, e, f, g, h) :=
      (sha256K.zip w).foldl sha256round (h0, h1, h2, h3, h4, h5, h6, h7)
    [(h0 + a) % 4294967296, (h1 + b) % 4294967296, (h2 + c) % 4294967296, (h3 + d) % 4294967296,
     (h4 + e) % 4294967296, (h5 + f) % 4294967296, (h6 + g) % 4294967296, (h7 + h) % 4294967296]
  | _ => H

/-- Encode a natural number as 8 big-endian bytes (Python `n.to_bytes(8, 'big')`). -/
def intToBytes8 (n : Nat) : List Nat :=
  [n / 2 ^ 56 % 256, n / 2 ^ 48 % 256, n / 2 ^ 40 % 256, n / 2 ^ 32 % 256,
   n / 2 ^ 24 % 256, n / 2 ^ 16 % 256, n / 2 ^ 8 % 256, n % 256]

/-- Decode a 32-bit word into 4 big-endian bytes. -/
def wordToBytes (w : Nat) : List Nat :=
  [w / 2 ^ 24 % 256, w / 2 ^ 16 % 256, w / 2 ^ 8 % 256, w % 256]

/-- SHA-256 of a byte list, as a 32-byte digest. -/
def sha256 (msg : List Nat) : List Nat :=
  let padded := msg ++ 0x80 :: List.replicate ((64 - (msg.length + 9) % 64) % 64) 0 ++
    intToBytes8 (8 * msg.length)
  let final := (chunk16 (bytesToWords padded)).foldl
    (fun H chunk => sha256compress H ((sha256extend (Array.mk chunk)).toList))
    sha256H0
  (final.map wordToBytes).flatten

/-! ## Transactions (external collaborator interface, §6 of the spec) -/

/-- Modelled from the spec: the `Transaction` module is not under `src/`;
the consensus core only consumes its stable 32-byte `id` (via `get_id`),
so a transaction is modelled by that identifier alone. -/
structure Transaction where
  id : List Nat
deriving DecidableEq

/-- Python `tx.get_id()`: returns the transaction's stable id bytes. -/
def Transaction.get_id (tx : Transaction) : List Nat := tx.id

/-- Modelled from the spec: `Transaction.to_raw_list` serialization is
delegated to the absent Transaction layer, which the spec requires to be
round-trippable; raw transaction lists are modelled by the transactions
themselves. -/
def Transaction.to_raw_list (txs : List Transaction) : List Transaction := txs

/-- Modelled from the spec: inverse of `Transaction.to_raw_list`. -/
def Transaction.from_raw_list (raws : List Transaction) : List Transaction := raws

/-! ## Block -/

/-- A block of the chain. `previous_hash` is `none` exactly when the Python
field is `None`; `timestamp` is in microseconds since the epoch. -/
structure Block where
  index : Nat
  previous_hash : Option (List Nat)
  timestamp : Int
  data : List Transaction
  difficulty : Nat
  nonce : Nat
  hash : List Nat
deriving DecidableEq

/-- Python `int(timestamp.timestamp())`: the whole-second part of a
microsecond timestamp, truncated toward zero as Python `int()` does. -/
def tsToSecs (t : Int) : Int := t.tdiv 1000000

/-- An incremental `hashlib` hasher is its accumulated message bytes. -/
def Hasher.init : List Nat := []

/-- Python `hasher.update(bs)` appends to the accumulated message. -/
def Hasher.update (h : List Nat) (bs : List Nat) : List Nat := h ++ bs

/-- Python `hasher.digest()`. -/
def Hasher.digest (h : List Nat) : List Nat := sha256 h

/-- Python `Block.calculate_hash`: feeds the fields to a SHA-256 hasher in
source order. The `isinstance(data, list)` branch is always taken in the
typed model (its `repr` fallback would need a non-list payload); the
timestamps stored by `datetime` are non-negative in every reachable state,
matching the `Int.toNat` coercion before `to_bytes`. -/
def Block.calculate_hash (index : Nat) (previous_hash : Option (List Nat)) (timestamp : Int)
    (data : List Transaction) (difficulty : Nat) (nonce : Nat) : List Nat :=
  let h := Hasher.init
  let h := Hasher.update h (intToBytes8 index)
  let h := match previous_hash with
    | some ph => Hasher.update h ph
    | none => h
  let h := Hasher.update h (intToBytes8 (tsToSecs timestamp).toNat)
  let h := data.foldl (fun h tx => Hasher.update h tx.get_id) h
  let h := Hasher.update h (intToBytes8 difficulty)
  let h := Hasher.update h (intToBytes8 nonce)
  Hasher.digest h

/-- Python `Block.__init__`: stores the six fields and computes the hash. -/
def Block.new (index : Nat) (previous_hash : Option (List Nat)) (timestamp : Int)
    (data : List Transaction) (difficulty : Nat) (nonce : Nat) : Block :=
  { index := index, previous_hash := previous_hash, timestamp := timestamp, data := data,
    difficulty := difficulty, nonce := nonce,
    hash := Block.calculate_hash index previous_hash timestamp data difficulty nonce }

/-- Python `Block.calculate_hash_for_block`. -/
def Block.calculate_hash_for_block (b : Block) : List Nat :=
  Block.calculate_hash b.index b.previous_hash b.timestamp b.data b.difficulty b.nonce

/-- Bit `i` (most-significant first across the bytes) of a digest, as in
`BitArray(bytes=hash).bin`. -/
def hashBit (hash : List Nat) (i : Nat) : Bool :=
  Nat.testBit (hash.getD (i / 8) 0) (7 - i % 8)

/-- Python `Block.hash_matches_difficulty`: `BitArray(bytes=hash).bin`
starts with `'0' * difficulty`, i.e. the prefix fits within the bit string
and every one of its bits is zero. -/
def Block.hash_matches_difficulty (hash : List Nat) (difficulty : Nat) : Bool :=
  decide (difficulty ≤ 8 * hash.length) &&
    (List.range difficulty).all fun i => hashBit hash i == false

/-- Python `Block.genesis_block`: timestamp 1528359030 s (UTC). -/
def Block.genesis_block : Block :=
  Block.new 0 none (1528359030 * 1000000) [] 0 0

/-- Python `Block.has_valid_hash`: recomputed hash equals the stored hash
and the stored hash satisfies the block's difficulty. -/
def Block.has_valid_hash (b : Block) : Bool :=
  (b.calculate_hash_for_block == b.hash) && Block.hash_matches_difficulty b.hash b.difficulty

/-- Python `Block.is_genesis`: seven-field equality with the genesis block
(`Block.__eq__` compares the full `__dict__`). -/
def Block.is_genesis (b : Block) : Bool :=
  decide (b = Block.genesis_block)

/-- Python `Block.has_valid_structure`: every `isinstance` conjunct holds
by construction in the typed model, so the check is identically true. -/
def Block.has_valid_structure (_b : Block) : Bool := true

/-- Python `Block.is_valid_timestamp(new_block, previous_block)`; the
verifier's `datetime.now()` is the explicit `now` argument (microseconds).
The two `total_seconds() < 60` tests become exact microsecond bounds. -/
def Block.is_valid_timestamp (new_block : Block) (previous_block : Block) (now : Int) : Bool :=
  decide (previous_block.timestamp - new_block.timestamp < 60 * 1000000) &&
    decide (new_block.timestamp - now < 60 * 1000000)

/-- Python `Block.is_valid_next(self, next_block)`: structure, index
increment, previous-hash link, timestamp tolerance, and hash validity, in
source order (a `None` previous hash never equals `self.hash`). -/
def Block.is_valid_next (self : Block) (next_block : Block) (now : Int) : Bool :=
  next_block.has_valid_structure &&
    (self.index + 1 == next_block.index) &&
    (some self.hash == next_block.previous_hash) &&
    Block.is_valid_timestamp next_block self now &&
    next_block.has_valid_hash

/-- Python `Block.find`: the unbounded `while True` nonce search, modelled
with explicit fuel; each step hashes the candidate nonce and stops at the
first one satisfying the difficulty. -/
def Block.findAux (index : Nat) (previous_hash : Option (List Nat)) (timestamp : Int)
    (data : List Transaction) (difficulty : Nat) : Nat → Nat → Option Block
  | 0, _ => none
  | fuel + 1, nonce =>
    let hash := Block.calculate_hash index previous_hash timestamp data difficulty nonce
    if Block.hash_matches_difficulty hash difficulty then
      some (Block.new index previous_hash timestamp data difficulty nonce)
    else
      Block.findAux index previous_hash timestamp data difficulty fuel (nonce + 1)

/-- Python `Block.find`, starting from nonce 0. -/
def Block.find (fuel : Nat) (index : Nat) (previous_hash : Option (List Nat)) (timestamp : Int)
    (data : List Transaction) (difficulty : Nat) : Option Block :=
  Block.findAux index previous_hash timestamp data difficulty fuel 0

/-- Raw (JSON-like) form of a block, canonical field names of §6. The hex
encoding of digests (`utils.bytes_to_hex` / `utils.hex_to_bytes`, a module
absent from `src/`) is modelled from the spec as the identity round-trip on
the underlying bytes, and raw transaction lists by `Transaction.to_raw_list`
above. The raw `timestamp` is in whole seconds. -/
structure BlockRaw where
  index : Nat
  previousHash : Option (List Nat)
  timestamp : Int
  data : List Transaction
  difficulty : Nat
  nonce : Nat
  hash : List Nat
deriving DecidableEq

/-- Python `Block.to_raw`: serializes the seven fields; the timestamp is
truncated to whole seconds by `int(self.timestamp.timestamp())`. -/
def Block.to_raw (b : Block) : BlockRaw :=
  { index := b.index,
    previousHash := b.previous_hash,
    timestamp := tsToSecs b.timestamp,
    data := Transaction.to_raw_list b.data,
    difficulty := b.difficulty,
    nonce := b.nonce,
    hash := b.hash }

/-- Python `Block.from_raw`: rebuilds a block through the constructor from
the six non-hash fields (`datetime.fromtimestamp` turns the whole-second
raw timestamp back into microseconds); the raw `hash` entry is unused. -/
def Block.from_raw (raw : BlockRaw) : Block :=
  Block.new raw.index raw.previousHash (raw.timestamp * 1000000)
    (Transaction.from_raw_list raw.data) raw.difficulty raw.nonce

/-! ## Blockchain aggregate

The aggregate is parametric in the unspent-output type `U` and the
transaction-pool type `P`; the external collaborators
`Transaction.process_transactions` (`procTx`) and `TransactionPool.update`
(`updatePool`) are black-box function parameters, per §4.3/§6 of the spec.
`P2PApplication` broadcasts cross the aggregate boundary and do not touch
the modelled state, so they are elided. -/

/-- Python exceptions that can escape the modelled operations. The
structured payload of `BadRequestError` is not modelled. -/
inductive PyErr where
  | badRequest
  | attributeError
  | indexError
deriving DecidableEq

/-- A dynamically typed argument to `add_block`: either an actual `Block`,
or some other Python object, which may (`other true`) or may not
(`other false`) provide a `to_raw` method. -/
inductive PyValue where
  | block (b : Block)
  | other (hasToRaw : Bool)

/-- The `Blockchain` aggregate state: active chain, UTXO set, pool. -/
structure Blockchain (U P : Type) where
  blocks : List Block
  unspent_tx_outs : List U
  tx_pool : P

/-- Python `Blockchain.BLOCK_GENERATION_INTERVAL` (seconds). -/
def Blockchain.BLOCK_GENERATION_INTERVAL : Nat := 10

/-- Python `Blockchain.DIFFICULTY_ADJUSTMENT_INTERVAL` (blocks). -/
def Blockchain.DIFFICULTY_ADJUSTMENT_INTERVAL : Nat := 10

variable {U P : Type}

/-- The `for i, block in enumerate(blocks)` body of
`Blockchain.validate_blocks` from index 1 on: each block must be a valid
successor of its predecessor and its transactions must process. -/
def Blockchain.validate_loop (procTx : List Transaction → List U → Nat → Option (List U))
    (now : Int) : List Block → Block → List U → Option (List U)
  | [], _, u => some u
  | b :: rest, prev, u =>
    if Block.is_valid_next prev b now then
      match procTx b.data u b.index with
      | none => none
      | some u2 => Blockchain.validate_loop procTx now rest b u2
    else none

/-- Python `Blockchain.validate_blocks`. The `isinstance(blocks, list)`
guard is discharged by typing; `blocks[0]` raises `IndexError` on the
empty list before any other check; the genesis element's transactions are
processed from the empty UTXO set (its `is_valid_next` check is skipped
because `i == 0`). -/
def Blockchain.validate_blocks (procTx : List Transaction → List U → Nat → Option (List U))
    (now : Int) (blocks : List Block) : Except PyErr (Option (List U)) :=
  match blocks with
  | [] => Except.error PyErr.indexError
  | b0 :: rest =>
    if Block.is_genesis b0 then
      match procTx b0.data [] b0.index with
      | none => Except.ok none
      | some u0 => Except.ok (Blockchain.validate_loop procTx now rest b0 u0)
    else Except.ok none

/-- Python `Blockchain.get_accumulated_difficulty`. -/
def Blockchain.get_accumulated_difficulty (blocks : List Block) : Nat :=
  (blocks.map fun b => 2 ^ b.difficulty).sum

/-- Python `Blockchain.add_block`. A non-Block argument raises: with a
`to_raw` method, `BadRequestError` (payload `block.to_raw()`); without
one, the `block.to_raw()` call itself raises `AttributeError`. The tip is
`self.blocks[-1]`, raising `IndexError` on an empty chain. On success the
block is appended, the UTXO set replaced, and the pool updated. -/
def Blockchain.add_block (procTx : List Transaction → List U → Nat → Option (List U))
    (updatePool : P → List U → P) (now : Int) (s : Blockchain U P) (arg : PyValue) :
    Except PyErr Bool × Blockchain U P :=
  match arg with
  | PyValue.other true => (Except.error PyErr.badRequest, s)
  | PyValue.other false => (Except.error PyErr.attributeError, s)
  | PyValue.block b =>
    match s.blocks.getLast? with
    | none => (Except.error PyErr.indexError, s)
    | some tip =>
      if Block.is_valid_next tip b now then
        match procTx b.data s.unspent_tx_outs b.index with
        | none => (Except.ok false, s)
        | some u =>
          (Except.ok true,
           { blocks := s.blocks ++ [b], unspent_tx_outs := u,
             tx_pool := updatePool s.tx_pool u })
      else (Except.ok false, s)

/-- Python `Blockchain.replace`: validate the candidate, then swap it in
only when its accumulated difficulty strictly exceeds the current chain's
(the `isinstance(new_blocks, list)` conjunct is discharged by typing; the
`broadcast_latest` call crosses the P2P boundary and is elided). -/
def Blockchain.replace (procTx : List Transaction → List U → Nat → Option (List U))
    (updatePool : P → List U → P) (now : Int) (s : Blockchain U P) (new_blocks : List Block) :
    Except PyErr Bool × Blockchain U P :=
  match Blockchain.validate_blocks procTx now new_blocks with
  | Except.error e => (Except.error e, s)
  | Except.ok none => (Except.ok false, s)
  | Except.ok (some u) =>
    if Blockchain.get_accumulated_difficulty new_blocks >
        Blockchain.get_accumulated_difficulty s.blocks then
      (Except.ok true,
       { blocks := new_blocks, unspent_tx_outs := u, tx_pool := updatePool s.tx_pool u })
    else (Except.ok false, s)

/-- Python `Blockchain.get_adjusted_difficulty`: the reference block sits
at list position `max(0, len(blocks) - 10)` (natural subtraction performs
the clamp; the `getD` default is never read on a non-empty chain), and the
`total_seconds()` comparisons against `time_expected / 2` and
`time_expected * 2` are scaled exactly to microseconds. `self.get_latest()`
is `blocks[-1]`, raising `IndexError` on an empty chain. -/
def Blockchain.get_adjusted_difficulty (s : Blockchain U P) : Except PyErr Nat :=
  match s.blocks.getLast? with
  | none => Except.error PyErr.indexError
  | some latest_block =>
    let prev_adjustment_block :=
      s.blocks.getD (s.blocks.length - Blockchain.DIFFICULTY_ADJUSTMENT_INTERVAL)
        Block.genesis_block
    let time_expected : Int :=
      (Blockchain.BLOCK_GENERATION_INTERVAL * Blockchain.DIFFICULTY_ADJUSTMENT_INTERVAL : Nat)
    let time_taken : Int := latest_block.timestamp - prev_adjustment_block.timestamp
    if time_taken < time_expected * 1000000 / 2 then
      Except.ok (prev_adjustment_block.difficulty + 1)
    else if time_taken > time_expected * 1000000 * 2 then
      Except.ok (max (prev_adjustment_block.difficulty - 1) 0)
    else
      Except.ok prev_adjustment_block.difficulty

/-- Python `Blockchain.get_difficulty`: retarget exactly when the tip's
index is a positive multiple of the adjustment interval. -/
def Blockchain.get_difficulty (s : Blockchain U P) : Except PyErr Nat :=
  match s.blocks.getLast? with
  | none => Except.error PyErr.indexError
  | some latest_block =>
    if latest_block.index % Blockchain.DIFFICULTY_ADJUSTMENT_INTERVAL == 0 &&
        latest_block.index != 0 then
      s.get_adjusted_difficulty
    else
      Except.ok latest_block.difficulty

/-! ## Spec-side definitions

These follow the wording of the specification (not the source); the
theorems below compare them with the embedded source functions. -/

/-- Canonical hash input as §4.1 of the spec words it: the concatenation,
in this exact order, of the 8-byte big-endian index, the raw previous-hash
bytes (zero bytes if absent), the 8-byte big-endian integer Unix-second
timestamp, each transaction's id in order, and the 8-byte big-endian
difficulty and nonce. -/
def canonicalBytes (index : Nat) (previous_hash : Option (List Nat)) (timestamp : Int)
    (data : List Transaction) (difficulty : Nat) (nonce : Nat) : List Nat :=
  intToBytes8 index ++
    (match previous_hash with
      | some ph => ph
      | none => []) ++
    intToBytes8 (tsToSecs timestamp).toNat ++
    (data.map Transaction.get_id).flatten ++
    intToBytes8 difficulty ++
    intToBytes8 nonce

/-- The next-difficulty function exactly as the spec claims it: on a chain
`[B₀, …, Bₙ]` (block `Bᵢ` at list position `i`) with `n > 0` and
`n mod 10 = 0`, retarget from the reference block `B_{n-10}`, clamped to
`B₀` when the chain is shorter (natural subtraction performs the clamp),
with thresholds of 50 and 200 seconds; otherwise return the tip's
difficulty. -/
def claimGetDifficulty (blocks : List Block) : Except PyErr Nat :=
  match blocks.getLast? with
  | none => Except.error PyErr.indexError
  | some latest =>
    if latest.index % Blockchain.DIFFICULTY_ADJUSTMENT_INTERVAL == 0 && latest.index != 0 then
      let p := blocks.getD (latest.index - Blockchain.DIFFICULTY_ADJUSTMENT_INTERVAL)
        Block.genesis_block
      Except.ok
        (if latest.timestamp - p.timestamp < 50 * 1000000 then p.difficulty + 1
         else if latest.timestamp - p.timestamp > 200 * 1000000 then max (p.difficulty - 1) 0
         else p.difficulty)
    else Except.ok latest.difficulty

/-- The corrected reference block: what the source actually selects is the
block at list position `len - 10`, i.e. `B_{n+1-10} = B_{max(0, n-9)}` on
a well-indexed chain `[B₀, …, Bₙ]` — one block later than the claim's
`B_{n-10}`. -/
def claimGetDifficultyAmended (blocks : List Block) : Except PyErr Nat :=
  match blocks.getLast? with
  | none => Except.error PyErr.indexError
  | some latest =>
    if latest.index % Blockchain.DIFFICULTY_ADJUSTMENT_INTERVAL == 0 && latest.index != 0 then
      let p := blocks.getD (latest.index + 1 - Blockchain.DIFFICULTY_ADJUSTMENT_INTERVAL)
        Block.genesis_block
      Except.ok
        (if latest.timestamp - p.timestamp < 50 * 1000000 then p.difficulty + 1
         else if latest.timestamp - p.timestamp > 200 * 1000000 then max (p.difficulty - 1) 0
         else p.difficulty)
    else Except.ok latest.difficulty

/-- The spec's ledger fold (§8, property 7), from an explicit starting
UTXO set: apply `process_transactions` to each block's `(data, index)` in
order, rejecting the whole chain on the first rejection. -/
def foldProcessFrom (procTx : List Transaction → List U → Nat → Option (List U)) :
    List U → List Block → Option (List U)
  | u, [] => some u
  | u, b :: rest =>
    match procTx b.data u b.index with
    | none => none
    | some u2 => foldProcessFrom procTx u2 rest

/-- The spec's ledger fold over a chain, starting from the empty UTXO set. -/
def foldProcess (procTx : List Transaction → List U → Nat → Option (List U))
    (blocks : List Block) : Option (List U) :=
  foldProcessFrom procTx [] blocks

/-! ## Concrete fixtures for witnesses and counterexamples -/

/-- A ledger black box that accepts every block and keeps the UTXO set. -/
def procU : List Transaction → List Unit → Nat → Option (List Unit) := fun _ u _ => some u

/-- A pool-update black box that ignores the new UTXO set. -/
def updU : Unit → List Unit → Unit := fun p _ => p

/-- A freshly initialized aggregate: genesis-only chain, empty UTXO set. -/
def s0 : Blockchain Unit Unit := ⟨[Block.genesis_block], [], ()⟩

/-- A constructor-built block with all-zero fields (its timestamp differs
from the genesis block's). -/
def blockZero : Block := Block.new 0 none 0 [] 0 0

/-- A candidate whose timestamp is exactly 60 s after `blockZero`'s. -/
def tsCand : Block := Block.new 1 (some blockZero.hash) (60 * 1000000) [] 0 0

/-- A candidate whose timestamp is exactly 60 s before `blockZero`'s. -/
def tsOld : Block := Block.new 1 (some blockZero.hash) (-(60 * 1000000)) [] 0 0

/-- A block whose index does not follow the genesis block. -/
def bWrongIndex : Block := Block.new 5 none 0 [] 0 0

/-- A block whose timestamp carries fractional seconds (0.5 s). -/
def bFrac : Block := Block.new 0 none 500000 [] 0 0

/-- A valid difficulty-0 successor of genesis, one second later. -/
def wB1 : Block := Block.new 1 (some Block.genesis_block.hash) (1528359030 * 1000000 + 1000000) [] 0 0

/-- The two-block chain `[genesis, wB1]` (accumulated difficulty 2). -/
def chain2 : List Block := [Block.genesis_block, wB1]

/-- A wall-clock instant at `wB1`'s timestamp. -/
def wNow : Int := 1528359030 * 1000000 + 1000000

/-- Blocks 1–10 of an 11-block chain mined quickly after a slow first
block: block 1 is 60 s after genesis and block 10 is 100 s after genesis,
so the span from genesis is 100 s but the span from block 1 is 40 s. -/
def cexB1 : Block := Block.new 1 (some Block.genesis_block.hash) (1528359030 * 1000000 + 60000000) [] 0 0

/-- Block 2 of the retarget chain. -/
def cexB2 : Block := Block.new 2 (some cexB1.hash) (1528359030 * 1000000 + 65000000) [] 0 0

/-- Block 3 of the retarget chain. -/
def cexB3 : Block := Block.new 3 (some cexB2.hash) (1528359030 * 1000000 + 70000000) [] 0 0

/-- Block 4 of the retarget chain. -/
def cexB4 : Block := Block.new 4 (some cexB3.hash) (1528359030 * 1000000 + 75000000) [] 0 0

/-- Block 5 of the retarget chain. -/
def cexB5 : Block := Block.new 5 (some cexB4.hash) (1528359030 * 1000000 + 80000000) [] 0 0

/-- Block 6 of the retarget chain. -/
def cexB6 : Block := Block.new 6 (some cexB5.hash) (1528359030 * 1000000 + 85000000) [] 0 0

/-- Block 7 of the retarget chain. -/
def cexB7 : Block := Block.new 7 (some cexB6.hash) (1528359030 * 1000000 + 90000000) [] 0 0

/-- Block 8 of the retarget chain. -/
def cexB8 : Block := Block.new 8 (some cexB7.hash) (1528359030 * 1000000 + 93000000) [] 0 0

/-- Block 9 of the retarget chain. -/
def cexB9 : Block := Block.new 9 (some cexB8.hash) (1528359030 * 1000000 + 96000000) [] 0 0

/-- Block 10 of the retarget chain. -/
def cexB10 : Block := Block.new 10 (some cexB9.hash) (1528359030 * 1000000 + 100000000) [] 0 0

/-- The 11-block retarget chain `[B₀ = genesis, B₁, …, B₁₀]`. -/
def cexChain : List Block :=
  [Block.genesis_block, cexB1, cexB2, cexB3, cexB4, cexB5, cexB6, cexB7, cexB8, cexB9, cexB10]

/-- An aggregate holding the retarget chain. -/
def cexState : Blockchain Unit Unit := ⟨cexChain, [], ()⟩

/-! ## Helper lemmas -/

/-- Feeding the transaction ids one `update` at a time appends their
concatenation to the accumulated message. -/
theorem foldl_update_flatten (data : List Transaction) (base : List Nat) :
    data.foldl (fun h tx => h ++ tx.get_id) base =
      base ++ (data.map Transaction.get_id).flatten := by
  induction data generalizing base with
  | nil => simp
  | cons t ts ih => simp [ih, List.append_assoc]

/-! ## Claims -/

/-- C3: for every block, `calculate_hash` equals the SHA-256 digest of the
concatenation, in this exact order, of the 8-byte big-endian index, the
raw previous-hash bytes if present (zero bytes if absent), the integer
Unix-second timestamp as 8 big-endian bytes, each transaction's id in
order, and the 8-byte big-endian difficulty and nonce. -/
theorem calculate_hash_canonical_layout (index : Nat) (previous_hash : Option (List Nat))
    (timestamp : Int) (data : List Transaction) (difficulty nonce : Nat) :
    Block.calculate_hash index previous_hash timestamp data difficulty nonce =
      sha256 (canonicalBytes index previous_hash timestamp data difficulty nonce) := by
  cases previous_hash <;>
    simp [Block.calculate_hash, canonicalBytes, Hasher.init, Hasher.update, Hasher.digest,
      foldl_update_flatten, List.append_assoc]

/-- C10: every block produced by the constructor has its `hash` field
equal to `calculate_hash` of its other six fields; `from_raw` ignores the
raw object's `hash` entry, so a deserialized block always passes the
hash-equality half of `has_valid_hash` regardless of the transmitted
hash. -/
theorem constructed_blocks_have_canonical_hash (index : Nat) (previous_hash : Option (List Nat))
    (timestamp : Int) (data : List Transaction) (difficulty nonce : Nat) (raw : BlockRaw)
    (h : List Nat) :
    (Block.new index previous_hash timestamp data difficulty nonce).hash =
      Block.calculate_hash index previous_hash timestamp data difficulty nonce ∧
    Block.from_raw raw = Block.from_raw { raw with hash := h } ∧
    (Block.from_raw raw).calculate_hash_for_block = (Block.from_raw raw).hash :=
  ⟨rfl, rfl, rfl⟩

/-- C4 (amended): the timestamp check of `is_valid_next` holds iff
`previous.timestamp - candidate.timestamp < 60 s` and
`candidate.timestamp - now < 60 s`, both strict; in particular a candidate
whose timestamp is exactly `prev - 60 s`, or exactly `now + 60 s`, is
rejected (the claim's boundary cases `prev + 60 s` and `now - 60 s` had
the signs reversed and are in fact accepted, see the counterexample). -/
theorem is_valid_timestamp_characterization (prev nb : Block) (now : Int) :
    (Block.is_valid_timestamp nb prev now = true ↔
      prev.timestamp - nb.timestamp < 60 * 1000000 ∧ nb.timestamp - now < 60 * 1000000) ∧
    (nb.timestamp = prev.timestamp - 60 * 1000000 →
      Block.is_valid_timestamp nb prev now = false) ∧
    (nb.timestamp = now + 60 * 1000000 →
      Block.is_valid_timestamp nb prev now = false) := by
  refine ⟨by simp [Block.is_valid_timestamp], ?_, ?_⟩ <;>
    · intro h
      simp only [Block.is_valid_timestamp, h, Bool.and_eq_false_iff, decide_eq_false_iff_not,
        not_lt]
      omega

/-- Witness for C4: a candidate dated exactly 60 s before its predecessor
is rejected. -/
theorem is_valid_timestamp_characterization_witness :
    Block.is_valid_timestamp tsOld blockZero 0 = false :=
  (is_valid_timestamp_characterization blockZero tsOld 0).2.1 (by decide)

/-- Counterexample for C4: a candidate dated exactly `prev + 60 s` — which
is also exactly `now - 60 s` for this wall clock — passes the timestamp
check, though the claim says both cases are rejected. -/
theorem timestamp_boundary_claim_counterexample :
    Block.is_valid_timestamp tsCand blockZero (120 * 1000000) = true ∧
    tsCand.timestamp = blockZero.timestamp + 60 * 1000000 ∧
    tsCand.timestamp = (120 * 1000000 : Int) - 60 * 1000000 := by
  refine ⟨by decide, by decide, by decide⟩

/-- C8 (amended): the raw round-trip restores a block exactly when its
timestamp is a whole number of seconds; the `hash` hypothesis is the
constructor invariant every Python-built block satisfies. -/
theorem from_raw_to_raw_roundtrip (b : Block) (hsec : (1000000 : Int) ∣ b.timestamp)
    (hhash : b.hash = b.calculate_hash_for_block) :
    Block.from_raw (Block.to_raw b) = b := by
  obtain ⟨i, ph, ts, d, df, n, h⟩ := b
  obtain ⟨k, hk⟩ := hsec
  simp only [Block.calculate_hash_for_block] at hhash
  subst hk
  have hts : tsToSecs (1000000 * k) * 1000000 = 1000000 * k := by
    unfold tsToSecs
    rw [Int.mul_tdiv_cancel_left k (by norm_num)]
    ring
  simp [Block.from_raw, Block.to_raw, Block.new, Transaction.from_raw_list,
    Transaction.to_raw_list, Block.mk.injEq, hts, hhash]

/-- Witness for C8: the genesis block round-trips. -/
theorem from_raw_to_raw_roundtrip_witness :
    Block.from_raw (Block.to_raw Block.genesis_block) = Block.genesis_block :=
  from_raw_to_raw_roundtrip Block.genesis_block ⟨1528359030, by decide⟩ rfl

/-- Counterexample for C8: a block whose timestamp carries half a second
does not round-trip — serialization truncates to whole seconds. -/
theorem roundtrip_fails_on_fractional_timestamp :
    Block.from_raw (Block.to_raw bFrac) ≠ bFrac ∧ bFrac.timestamp = 500000 ∧
      (Block.from_raw (Block.to_raw bFrac)).timestamp = 0 :=
  ⟨by decide, rfl, rfl⟩

/-- C5 (amended): for every non-empty candidate list, `validate_blocks`
returns a result rather than raising; a list not starting with the exact
genesis block yields `none`; and a `none` verdict makes `replace` return
false with the state unchanged. (On the empty list the claim fails: see
the counterexample.) -/
theorem validate_blocks_nonempty_no_raise (procTx : List Transaction → List U → Nat → Option (List U))
    (updatePool : P → List U → P) (now : Int) (s : Blockchain U P) (bs : List Block)
    (hne : bs ≠ []) :
    (∃ r, Blockchain.validate_blocks procTx now bs = Except.ok r) ∧
    (∀ b rest, bs = b :: rest → Block.is_genesis b = false →
      Blockchain.validate_blocks procTx now bs = Except.ok none) ∧
    (Blockchain.validate_blocks procTx now bs = Except.ok none →
      Blockchain.replace procTx updatePool now s bs = (Except.ok false, s)) := by
  obtain ⟨b0, rest, rfl⟩ : ∃ b r, bs = b :: r := by
    cases bs with
    | nil => exact absurd rfl hne
    | cons b r => exact ⟨b, r, rfl⟩
  refine ⟨?_, ?_, ?_⟩
  · simp only [Blockchain.validate_blocks]
    by_cases hg : b0.is_genesis = true
    · rw [if_pos hg]
      cases hp : procTx b0.data [] b0.index with
      | none => exact ⟨none, rfl⟩
      | some u0 => exact ⟨_, rfl⟩
    · rw [if_neg hg]
      exact ⟨none, rfl⟩
  · intro b rest' heq hg
    obtain ⟨rfl, rfl⟩ : b0 = b ∧ rest = rest' := by
      injection heq with h1 h2
      exact ⟨h1, h2⟩
    simp [Blockchain.validate_blocks, hg]
  · intro hval
    unfold Blockchain.replace
    rw [hval]

/-- Witness for C5: a non-empty candidate whose head is not the genesis
block is rejected by `replace` with a false result, not an exception. -/
theorem validate_blocks_nonempty_no_raise_witness :
    Blockchain.replace procU updU 0 s0 [blockZero] = (Except.ok false, s0) :=
  (validate_blocks_nonempty_no_raise procU updU 0 s0 [blockZero] (by decide)).2.2 (by rfl)

/-- Counterexample for C5: the empty candidate list makes `blocks[0]`
raise `IndexError` inside `validate_blocks`, which propagates out of
`replace` — the claim's "including the empty sequence ... never raised"
fails. -/
theorem validate_blocks_empty_raises :
    Blockchain.validate_blocks procU 0 ([] : List Block) = Except.error PyErr.indexError ∧
    Blockchain.replace procU updU 0 s0 [] = (Except.error PyErr.indexError, s0) :=
  ⟨rfl, rfl⟩

/-- C6 (amended): a non-Block argument with a `to_raw` method makes
`add_block` raise the bad-request error, one without it raises an
attribute error instead of the claimed bad-request — in both cases and in
every false-returning run the aggregate (blocks, UTXO set and pool) is
unchanged; a well-formed block failing the successor or the ledger check
returns false without mutation. -/
theorem add_block_error_and_rejection_behavior
    (procTx : List Transaction → List U → Nat → Option (List U))
    (updatePool : P → List U → P) (now : Int) (s : Blockchain U P) :
    (Blockchain.add_block procTx updatePool now s (PyValue.other true) =
      (Except.error PyErr.badRequest, s)) ∧
    (Blockchain.add_block procTx updatePool now s (PyValue.other false) =
      (Except.error PyErr.attributeError, s)) ∧
    (∀ b tip, s.blocks.getLast? = some tip → Block.is_valid_next tip b now = false →
      Blockchain.add_block procTx updatePool now s (PyValue.block b) = (Except.ok false, s)) ∧
    (∀ b tip, s.blocks.getLast? = some tip → Block.is_valid_next tip b now = true →
      procTx b.data s.unspent_tx_outs b.index = none →
      Blockchain.add_block procTx updatePool now s (PyValue.block b) = (Except.ok false, s)) ∧
    (∀ b s', Blockchain.add_block procTx updatePool now s (PyValue.block b) =
      (Except.ok false, s') → s' = s) := by
  refine ⟨rfl, rfl, ?_, ?_, ?_⟩
  · intro b tip htip hval
    simp only [Blockchain.add_block]
    rw [htip]
    simp [hval]
  · intro b tip htip hval hproc
    simp only [Blockchain.add_block]
    rw [htip]
    simp [hval, hproc]
  · intro b s' h
    simp only [Blockchain.add_block] at h
    cases hgl : s.blocks.getLast? with
    | none =>
      rw [hgl] at h
      simp at h
    | some tip =>
      rw [hgl] at h
      by_cases hv : Block.is_valid_next tip b now = true
      · simp only [hv, if_true] at h
        cases hp : procTx b.data s.unspent_tx_outs b.index with
        | none =>
          rw [hp] at h
          simp at h
          exact h.symm
        | some u =>
          rw [hp] at h
          simp at h
      · simp [hv] at h
        exact h.symm

/-- Witness for C6: a block with the wrong index is rejected with a false
result and the aggregate is left untouched. -/
theorem add_block_error_and_rejection_behavior_witness :
    Blockchain.add_block procU updU 0 s0 (PyValue.block bWrongIndex) = (Except.ok false, s0) :=
  (add_block_error_and_rejection_behavior procU updU 0 s0).2.2.1 bWrongIndex
    Block.genesis_block rfl (by rfl)

/-- Counterexample for C6: an argument that is not a Block and offers no
`to_raw` method makes `add_block` raise `AttributeError` (from the
`block.to_raw()` call building the error payload), not the claimed
bad-request error. -/
theorem add_block_non_block_attribute_error :
    (Blockchain.add_block procU updU 0 s0 (PyValue.other false)).1 =
      Except.error PyErr.attributeError ∧
    (Except.error PyErr.attributeError : Except PyErr Bool) ≠ Except.error PyErr.badRequest := by
  refine ⟨rfl, ?_⟩
  intro h
  injection h with h'
  cases h'

/-- C2: `replace` swaps in the candidate only if it validates and its
accumulated difficulty (`Σ 2^difficulty`) strictly exceeds the current
chain's; after every successful replace the accumulated difficulty
strictly increases, and on a tie or a loss it returns false with blocks
and UTXO set unchanged. -/
theorem replace_strictly_increases_difficulty
    (procTx : List Transaction → List U → Nat → Option (List U))
    (updatePool : P → List U → P) (now : Int) (s : Blockchain U P) (nb : List Block) :
    (∀ s', Blockchain.replace procTx updatePool now s nb = (Except.ok true, s') →
      s'.blocks = nb ∧
      (∃ u, Blockchain.validate_blocks procTx now nb = Except.ok (some u) ∧
        s'.unspent_tx_outs = u) ∧
      Blockchain.get_accumulated_difficulty s'.blocks >
        Blockchain.get_accumulated_difficulty s.blocks) ∧
    (∀ s', Blockchain.replace procTx updatePool now s nb = (Except.ok false, s') → s' = s) ∧
    (∀ u, Blockchain.validate_blocks procTx now nb = Except.ok (some u) →
      Blockchain.get_accumulated_difficulty nb ≤ Blockchain.get_accumulated_difficulty s.blocks →
      Blockchain.replace procTx updatePool now s nb = (Except.ok false, s)) := by
  refine ⟨?_, ?_, ?_⟩
  · intro s' h
    unfold Blockchain.replace at h
    cases hv : Blockchain.validate_blocks procTx now nb with
    | error e =>
      rw [hv] at h
      simp at h
    | ok r =>
      rw [hv] at h
      cases r with
      | none => simp at h
      | some u =>
        by_cases hacc : Blockchain.get_accumulated_difficulty nb >
            Blockchain.get_accumulated_difficulty s.blocks
        · simp only [hacc, if_true, Prod.mk.injEq, true_and] at h
          subst h
          exact ⟨rfl, ⟨u, rfl, rfl⟩, hacc⟩
        · simp [hacc] at h
  · intro s' h
    unfold Blockchain.replace at h
    cases hv : Blockchain.validate_blocks procTx now nb with
    | error e =>
      rw [hv] at h
      simp at h
    | ok r =>
      rw [hv] at h
      cases r with
      | none =>
        simp at h
        exact h.symm
      | some u =>
        by_cases hacc : Blockchain.get_accumulated_difficulty nb >
            Blockchain.get_accumulated_difficulty s.blocks
        · simp [hacc] at h
        · simp [hacc] at h
          exact h.symm
  · intro u hv hle
    unfold Blockchain.replace
    rw [hv]
    have hn : ¬(Blockchain.get_accumulated_difficulty nb >
        Blockchain.get_accumulated_difficulty s.blocks) := not_lt.mpr hle
    simp [hn]

/-- Witness for C2: a valid two-block candidate of accumulated difficulty
2 replaces the genesis-only chain (accumulated difficulty 1) and the
metric strictly increases. -/
theorem replace_strictly_increases_difficulty_witness :
    ∃ s' : Blockchain Unit Unit,
      Blockchain.replace procU updU wNow s0 chain2 = (Except.ok true, s') ∧
      Blockchain.get_accumulated_difficulty s'.blocks >
        Blockchain.get_accumulated_difficulty s0.blocks :=
  ⟨⟨chain2, [], ()⟩, rfl,
    ((replace_strictly_increases_difficulty procU updU wNow s0 chain2).1
      ⟨chain2, [], ()⟩ rfl).2.2⟩

/-- Appending a block to a folded chain applies one more ledger step. -/
theorem foldProcessFrom_append (procTx : List Transaction → List U → Nat → Option (List U))
    (bs : List Block) (b : Block) (u : List U) :
    foldProcessFrom procTx u (bs ++ [b]) =
      match foldProcessFrom procTx u bs with
      | none => none
      | some u2 => procTx b.data u2 b.index := by
  induction bs generalizing u with
  | nil => cases hp : procTx b.data u b.index <;> simp [foldProcessFrom, hp]
  | cons c cs ih => cases hp : procTx c.data u c.index <;> simp [foldProcessFrom, hp, ih]

/-- A successful validation walk performs exactly the ledger fold. -/
theorem validate_loop_fold (procTx : List Transaction → List U → Nat → Option (List U))
    (now : Int) (rest : List Block) :
    ∀ (prev : Block) (u u' : List U),
      Blockchain.validate_loop procTx now rest prev u = some u' →
      foldProcessFrom procTx u rest = some u' := by
  induction rest with
  | nil =>
    intro prev u u' h
    simpa [Blockchain.validate_loop, foldProcessFrom] using h
  | cons b bs ih =>
    intro prev u u' h
    simp only [Blockchain.validate_loop] at h
    by_cases hv : Block.is_valid_next prev b now = true
    · rw [if_pos hv] at h
      cases hp : procTx b.data u b.index with
      | none =>
        rw [hp] at h
        simp at h
      | some u2 =>
        rw [hp] at h
        simp only [foldProcessFrom, hp]
        exact ih b u2 u' h
    · rw [if_neg hv] at h
      exact absurd h (by simp)

/-- A chain accepted by `validate_blocks` folds, from the empty UTXO set,
to exactly the UTXO set the validation returned. -/
theorem validate_blocks_fold (procTx : List Transaction → List U → Nat → Option (List U))
    (now : Int) (bs : List Block) (u : List U)
    (h : Blockchain.validate_blocks procTx now bs = Except.ok (some u)) :
    foldProcess procTx bs = some u := by
  cases bs with
  | nil => simp [Blockchain.validate_blocks] at h
  | cons b0 rest =>
    simp only [Blockchain.validate_blocks] at h
    by_cases hg : b0.is_genesis = true
    · rw [if_pos hg] at h
      cases hp : procTx b0.data [] b0.index with
      | none =>
        rw [hp] at h
        simp at h
      | some u0 =>
        rw [hp] at h
        simp only at h
        have h' : Blockchain.validate_loop procTx now rest b0 u0 = some u := by
          simpa using h
        simp only [foldProcess, foldProcessFrom, hp]
        exact validate_loop_fold procTx now rest b0 u0 u h'
    · rw [if_neg hg] at h
      simp at h

/-- C7: after every successful `add_block` (from a state already
satisfying the invariant) or `replace`, the stored `unspent_tx_outs`
equals the fold of `process_transactions` over the current chain's blocks
`(data, index)`, starting from the empty UTXO set. -/
theorem utxo_set_equals_chain_fold (procTx : List Transaction → List U → Nat → Option (List U))
    (updatePool : P → List U → P) (now : Int) (s : Blockchain U P) :
    (∀ arg s', foldProcess procTx s.blocks = some s.unspent_tx_outs →
      Blockchain.add_block procTx updatePool now s arg = (Except.ok true, s') →
      foldProcess procTx s'.blocks = some s'.unspent_tx_outs) ∧
    (∀ nb s', Blockchain.replace procTx updatePool now s nb = (Except.ok true, s') →
      foldProcess procTx s'.blocks = some s'.unspent_tx_outs) := by
  constructor
  · intro arg s' hinv h
    cases arg with
    | other hasToRaw => cases hasToRaw <;> simp [Blockchain.add_block] at h
    | block b =>
      simp only [Blockchain.add_block] at h
      cases hgl : s.blocks.getLast? with
      | none =>
        rw [hgl] at h
        simp at h
      | some tip =>
        rw [hgl] at h
        by_cases hv : Block.is_valid_next tip b now = true
        · simp only [hv, if_true] at h
          cases hp : procTx b.data s.unspent_tx_outs b.index with
          | none =>
            rw [hp] at h
            simp at h
          | some u =>
            rw [hp] at h
            simp only [Prod.mk.injEq, true_and] at h
            subst h
            simp only [foldProcess] at hinv ⊢
            rw [foldProcessFrom_append, hinv]
            exact hp
        · simp [hv] at h
  · intro nb s' h
    unfold Blockchain.replace at h
    cases hv : Blockchain.validate_blocks procTx now nb with
    | error e =>
      rw [hv] at h
      simp at h
    | ok r =>
      rw [hv] at h
      cases r with
      | none => simp at h
      | some u =>
        by_cases hacc : Blockchain.get_accumulated_difficulty nb >
            Blockchain.get_accumulated_difficulty s.blocks
        · simp only [hacc, if_true, Prod.mk.injEq, true_and] at h
          subst h
          exact validate_blocks_fold procTx now nb u hv
        · simp [hacc] at h

/-- Witness for C7: after the successful replace of the C2 scenario, the
stored UTXO set equals the ledger fold over the stored chain. -/
theorem utxo_set_equals_chain_fold_witness :
    foldProcess procU (⟨chain2, [], ()⟩ : Blockchain Unit Unit).blocks =
      some (⟨chain2, [], ()⟩ : Blockchain Unit Unit).unspent_tx_outs :=
  (utxo_set_equals_chain_fold procU updU wNow s0).2 chain2 ⟨chain2, [], ()⟩ rfl

/-- The fueled nonce search, started at nonce `k`, finds the least offset
`j` whose hash satisfies the difficulty. -/
theorem findAux_least (index : Nat) (previous_hash : Option (List Nat)) (timestamp : Int)
    (data : List Transaction) (difficulty : Nat) :
    ∀ (fuel k : Nat),
      (∃ n, n < fuel ∧ Block.hash_matches_difficulty
        (Block.calculate_hash index previous_hash timestamp data difficulty (k + n))
        difficulty = true) →
      ∃ j, Block.findAux index previous_hash timestamp data difficulty fuel k =
          some (Block.new index previous_hash timestamp data difficulty (k + j)) ∧
        Block.hash_matches_difficulty
          (Block.calculate_hash index previous_hash timestamp data difficulty (k + j))
          difficulty = true ∧
        ∀ m, m < j → Block.hash_matches_difficulty
          (Block.calculate_hash index previous_hash timestamp data difficulty (k + m))
          difficulty = false := by
  intro fuel
  induction fuel with
  | zero =>
    rintro k ⟨n, hn, -⟩
    omega
  | succ f ih =>
    rintro k ⟨n, hn, hmatch⟩
    by_cases h0 : Block.hash_matches_difficulty
        (Block.calculate_hash index previous_hash timestamp data difficulty k) difficulty = true
    · refine ⟨0, ?_, by simpa using h0, ?_⟩
      · simp [Block.findAux, h0]
      · intro m hm
        omega
    · have hn0 : n ≠ 0 := by
        intro hn0
        subst hn0
        exact h0 (by simpa using hmatch)
      obtain ⟨j, hfind, hmatchj, hleast⟩ := ih (k + 1)
        ⟨n - 1, by omega, by
          have hkn : k + 1 + (n - 1) = k + n := by omega
          rw [hkn]
          exact hmatch⟩
      refine ⟨j + 1, ?_, ?_, ?_⟩
      · rw [show k + (j + 1) = k + 1 + j by omega]
        simp only [Block.findAux]
        rw [if_neg h0]
        exact hfind
      · rw [show k + (j + 1) = k + 1 + j by omega]
        exact hmatchj
      · intro m hm
        cases m with
        | zero =>
          rw [Nat.add_zero]
          cases hb : Block.hash_matches_difficulty
              (Block.calculate_hash index previous_hash timestamp data difficulty k) difficulty with
          | true => exact absurd hb h0
          | false => rfl
        | succ m' =>
          rw [show k + (m' + 1) = k + 1 + m' by omega]
          exact hleast m' (by omega)

/-- C9: whenever a conforming nonce exists (within the modelled search
budget), `Block.find` returns the block built from the given fields whose
nonce is the least conforming one; being a pure function of its inputs,
the search is deterministic across runs. -/
theorem find_returns_least_conforming_nonce (fuel index : Nat)
    (previous_hash : Option (List Nat)) (timestamp : Int) (data : List Transaction)
    (difficulty : Nat)
    (h : ∃ n, n < fuel ∧ Block.hash_matches_difficulty
      (Block.calculate_hash index previous_hash timestamp data difficulty n) difficulty = true) :
    ∃ b, Block.find fuel index previous_hash timestamp data difficulty = some b ∧
      b = Block.new index previous_hash timestamp data difficulty b.nonce ∧
      Block.hash_matches_difficulty
        (Block.calculate_hash index previous_hash timestamp data difficulty b.nonce)
        difficulty = true ∧
      ∀ m, m < b.nonce → Block.hash_matches_difficulty
        (Block.calculate_hash index previous_hash timestamp data difficulty m)
        difficulty = false := by
  obtain ⟨j, hfind, hmatch, hleast⟩ :=
    findAux_least index previous_hash timestamp data difficulty fuel 0
      (by
        obtain ⟨n, hn, hm⟩ := h
        exact ⟨n, hn, by simpa using hm⟩)
  simp only [Nat.zero_add] at hfind hmatch hleast
  exact ⟨Block.new index previous_hash timestamp data difficulty j, hfind, rfl, hmatch, hleast⟩

/-- Witness for C9: at difficulty 0 the very first nonce conforms, and the
search returns it. -/
theorem find_returns_least_conforming_nonce_witness :
    ∃ b, Block.find 1 1 none 0 [] 0 = some b ∧
      b = Block.new 1 none 0 [] 0 b.nonce ∧
      Block.hash_matches_difficulty (Block.calculate_hash 1 none 0 [] 0 b.nonce) 0 = true ∧
      ∀ m, m < b.nonce →
        Block.hash_matches_difficulty (Block.calculate_hash 1 none 0 [] 0 m) 0 = false :=
  find_returns_least_conforming_nonce 1 1 none 0 [] 0 ⟨0, by omega, by rfl⟩

/-- C1 (amended): on a well-indexed chain `[B₀, …, Bₙ]` the next
difficulty is computed exactly as the claim says, except that the
retarget reference block is the one at list position `len - 10`, i.e.
`B_{max(0, n - 9)}` — one block later than the claim's `B_{n-10}`. -/
theorem get_difficulty_reference_block (s : Blockchain U P)
    (hidx : ∀ i : Fin s.blocks.length, (s.blocks.get i).index = i.val)
    (hne : s.blocks ≠ []) :
    Blockchain.get_difficulty s = claimGetDifficultyAmended s.blocks := by
  obtain ⟨blocks, u, p⟩ := s
  dsimp only at hidx hne ⊢
  rcases List.eq_nil_or_concat blocks with rfl | ⟨L, last, rfl⟩
  · exact absurd rfl hne
  · simp only [List.concat_eq_append] at hidx ⊢
    have hlast : last.index = L.length := by
      have h2 := hidx ⟨L.length, by simp⟩
      simpa [List.concat_eq_append, List.get_eq_getElem, List.getElem_concat_length] using h2
    unfold Blockchain.get_difficulty claimGetDifficultyAmended
    simp only [List.getLast?_concat]
    by_cases hcond : (last.index % Blockchain.DIFFICULTY_ADJUSTMENT_INTERVAL == 0 &&
        last.index != 0) = true
    · rw [if_pos hcond, if_pos hcond]
      unfold Blockchain.get_adjusted_difficulty
      simp only [List.getLast?_concat]
      have hpos : (L ++ [last]).length - Blockchain.DIFFICULTY_ADJUSTMENT_INTERVAL =
          last.index + 1 - Blockchain.DIFFICULTY_ADJUSTMENT_INTERVAL := by
        simp [hlast]
      rw [hpos]
      norm_num [Blockchain.BLOCK_GENERATION_INTERVAL, Blockchain.DIFFICULTY_ADJUSTMENT_INTERVAL]
      split_ifs <;> rfl
    · rw [if_neg hcond, if_neg hcond]

/-- Witness for C1 (amended): on the concrete 11-block retarget chain the
source agrees with the corrected reference-block formula. -/
theorem get_difficulty_reference_block_witness :
    Blockchain.get_difficulty cexState = claimGetDifficultyAmended cexState.blocks :=
  get_difficulty_reference_block cexState (by decide) (by decide)

/-- Counterexample for C1: on the 11-block retarget chain the source
retargets from block 1 (span 40 s, difficulty goes up to 1) while the
claim's `B_{n-10}` formula retargets from genesis (span 100 s, difficulty
stays 0). -/
theorem get_difficulty_claim_counterexample :
    Blockchain.get_difficulty cexState = Except.ok 1 ∧
    claimGetDifficulty cexState.blocks = Except.ok 0 :=
  ⟨rfl, rfl⟩

end Pynaive
